import Mathlib

/-!
Verification development for the BTI order-management backend.

The definitions below are a shallow embedding of the order lifecycle state
machine, the plan version store, the plan diff engine, the wall-segment
splitter and the plan-document validation rules, translated from
`app/services/order_service.py`, `app/api/v1/endpoints/client_orders.py`,
`app/api/v1/endpoints/executor_orders.py`,
`app/api/v1/endpoints/admin_orders.py` and `app/schemas/plan.py`.

Conventions of the embedding:
* Database rows become Lean structures; a table scoped to one order becomes a
  `List` of rows in insertion order (the services read them back ordered by
  `created_at` ascending, and `created_at` is monotone in insertion order
  because updates keep the original `created_at`).
* Fresh primary keys and timestamps are passed in as explicit `Nat` arguments
  (the database generates them; only their identity matters here).
* Python floats become `ℚ`; Python `datetime` values become opaque `Nat` ticks.
* The pricing collaborator `calculate_order_price` (which may degrade to
  `None`) is an abstract parameter `priceFn`, matching the spec contract
  `PricingEngine.estimate(districtId, houseTypeId, calculatorInput)`.
* Operations that raise `HTTPException` before mutating anything are embedded
  as `Except`-returning functions; the error branch corresponds to a rolled
  back (unchanged) database state.
-/

/-- The `OrderStatus` enum from `app/models/order.py`. -/
inductive OrderStatus where
  | DRAFT
  | SUBMITTED
  | EXECUTOR_ASSIGNED
  | VISIT_SCHEDULED
  | DOCUMENTS_IN_PROGRESS
  | READY_FOR_APPROVAL
  | AWAITING_CLIENT_APPROVAL
  | REJECTED_BY_EXECUTOR
  | COMPLETED
  | CANCELLED
  | REJECTED
deriving DecidableEq, Repr

/-- One `OrderStatusHistory` row (fields relevant to the order it belongs
to): status value, acting user (None for system entries), comment. -/
structure HistoryEntry where
  hstatus : OrderStatus
  changed_by : Option String
  comment : Option String
deriving DecidableEq, Repr

/-- One `OrderPlanVersion` row scoped to a single order.  The plan document
payload is an opaque type parameter `P`.  `rid` and `created_at` stand for the
database-assigned primary key and creation timestamp. -/
structure PlanRow (P : Type) where
  rid : Nat
  version_type : String
  plan : P
  is_applied : Bool
  comment : Option String
  created_by : Option String
  created_at : Nat
deriving DecidableEq, Repr

/-- Python truthiness of an optional string: `None` and the empty string are
falsy.  Used by `add_plan_version` (`if payload.comment: ...`). -/
def strTruthy : Option String → Bool
  | none => false
  | some s => !(s = "")

/-- In-place update of the first row matching the version type, mirroring the
mutation of the ORM object returned by `db.scalar` in `add_plan_version`:
`plan` is always overwritten, `comment` only when the payload comment is
truthy, `created_by` only when a creator is passed. -/
def update_first_matching {P : Type} (vt : String) (planDoc : P)
    (comment : Option String) (creator : Option String) :
    List (PlanRow P) → List (PlanRow P)
  | [] => []
  | r :: rest =>
    if r.version_type = vt then
      { r with
        plan := planDoc
        comment := if strTruthy comment then comment else r.comment
        created_by := creator.orElse (fun _ => r.created_by) } :: rest
    else r :: update_first_matching vt planDoc comment creator rest

/-- `add_plan_version` (order_service.py): upsert by `(order, version_type)`.
If a stored row with the requested version type exists, it is updated in
place; otherwise a new row with `is_applied = True` is appended. -/
def add_plan_version {P : Type} (store : List (PlanRow P)) (vt : String)
    (planDoc : P) (comment : Option String) (creator : Option String)
    (newId newTime : Nat) : List (PlanRow P) :=
  if store.any (fun r => r.version_type = vt) then
    update_first_matching vt planDoc comment creator store
  else
    store ++ [⟨newId, vt, planDoc, true, comment, creator, newTime⟩]

/-- `executor_edit_plan` (order_service.py), restricted to its effect on the
plan version store: unconditionally appends a new `EXECUTOR_EDITED` row with
`is_applied = False`. -/
def executor_edit_plan_store {P : Type} (store : List (PlanRow P))
    (planDoc : P) (comment : String) (executor : String)
    (newId newTime : Nat) : List (PlanRow P) :=
  store ++ [⟨newId, "EXECUTOR_EDITED", planDoc, false, some comment, some executor, newTime⟩]

/-- `executor_approve_plan` (order_service.py), restricted to its effect on
the plan version store: reads the latest version (ordered by `created_at`
descending, i.e. the last stored row) and, when one exists, appends a new
`FINAL` row copying its plan. -/
def executor_approve_plan_store {P : Type} (store : List (PlanRow P))
    (comment : Option String) (executor : String)
    (newId newTime : Nat) : List (PlanRow P) :=
  match store.getLast? with
  | none => store
  | some current =>
    store ++ [⟨newId, "FINAL", current.plan, true,
      some (comment.getD "План одобрен исполнителем"), some executor, newTime⟩]

/-- The three plan-save operations of claim C2, with the database-generated
identifiers as explicit data. -/
inductive PlanOp (P : Type) where
  | save (vt : String) (planDoc : P) (comment : Option String)
      (creator : Option String) (newId newTime : Nat)
  | executorEdit (planDoc : P) (comment : String) (executor : String)
      (newId newTime : Nat)
  | executorApprove (comment : Option String) (executor : String)
      (newId newTime : Nat)

/-- Apply one plan-save operation to the version store. -/
def applyPlanOp {P : Type} (store : List (PlanRow P)) : PlanOp P → List (PlanRow P)
  | .save vt planDoc comment creator newId newTime =>
      add_plan_version store vt planDoc comment creator newId newTime
  | .executorEdit planDoc comment executor newId newTime =>
      executor_edit_plan_store store planDoc comment executor newId newTime
  | .executorApprove comment executor newId newTime =>
      executor_approve_plan_store store comment executor newId newTime

/-- Apply a sequence of plan-save operations, oldest first. -/
def applyPlanOps {P : Type} (store : List (PlanRow P)) : List (PlanOp P) → List (PlanRow P)
  | [] => store
  | op :: rest => applyPlanOps (applyPlanOp store op) rest

/-- Number of stored plan versions of a given version type. -/
def countType {P : Type} (store : List (PlanRow P)) (vt : String) : Nat :=
  (store.filter (fun r => r.version_type = vt)).length

/-- Opaque calculator-input bag (`calculator_input: dict[str, Any]`); the
pricing collaborator is the only consumer so its structure is irrelevant. -/
def CalcInput : Type := List (String × String)

instance : DecidableEq CalcInput := by
  unfold CalcInput
  infer_instance

/-- Abstract pricing collaborator: `calculate_order_price` reads the order's
district code, house type code and the calculator input, and may degrade to
`None` on failure. -/
def PriceFn : Type := Option String → Option String → CalcInput → Option ℚ

/-- The `Order` row (`app/models/order.py`) together with its owned
`order_status_history` and `order_plan_versions` rows, which the services
always read back ordered by `created_at` ascending (list order here). -/
structure OrderRec (P : Type) where
  title : String
  description : Option String
  address : Option String
  district_code : Option String
  house_type_code : Option String
  status : OrderStatus
  calculator_input : Option CalcInput
  estimated_price : Option ℚ
  total_price : Option ℚ
  planned_visit_at : Option Nat
  completed_at : Option Nat
  current_department_code : Option String
  history : List HistoryEntry
  plan_versions : List (PlanRow P)

/-- `add_status_history` (order_service.py): sets `order.status` and appends
the matching history row in the same commit. -/
def add_status_history {P : Type} (o : OrderRec P) (st : OrderStatus)
    (actor : Option String) (comment : Option String) : OrderRec P :=
  { o with status := st, history := o.history ++ [⟨st, actor, comment⟩] }

/-- `CreateOrderRequest` (app/schemas/orders.py). -/
structure CreateOrderRequest where
  title : String
  description : Option String
  address : Option String
  district_code : Option String
  house_type_code : Option String
  calculator_input : Option CalcInput

/-- `create_order` (order_service.py): the order is created in `SUBMITTED`
status with one matching history row (actor = client), and the estimated
price computed by the pricing collaborator from `calculator_input or {}`. -/
def create_order {P : Type} (priceFn : PriceFn) (client : String)
    (data : CreateOrderRequest) : OrderRec P :=
  let calcData := data.calculator_input.getD []
  { title := data.title
    description := data.description
    address := data.address
    district_code := data.district_code
    house_type_code := data.house_type_code
    status := .SUBMITTED
    calculator_input := some calcData
    estimated_price := priceFn data.district_code data.house_type_code calcData
    total_price := none
    planned_visit_at := none
    completed_at := none
    current_department_code := none
    history := [⟨.SUBMITTED, some client, none⟩]
    plan_versions := [] }

/-- `UpdateOrderRequest` (app/schemas/orders.py). -/
structure UpdateOrderRequest where
  title : Option String
  description : Option String
  address : Option String
  district_code : Option String
  house_type_code : Option String
  calculator_input : Option CalcInput

/-- `update_order_by_client` (order_service.py): guarded by
`status in (DRAFT, SUBMITTED)` (raising 400 before any mutation otherwise);
overwrites exactly the non-None request fields, then recomputes
`estimated_price` from `order.calculator_input or {}`.  No history row is
written. -/
def update_order_by_client {P : Type} (priceFn : PriceFn) (o : OrderRec P)
    (data : UpdateOrderRequest) : Except String (OrderRec P) :=
  if o.status = .DRAFT ∨ o.status = .SUBMITTED then
    let o1 : OrderRec P :=
      { o with
        title := data.title.getD o.title
        description := data.description.orElse (fun _ => o.description)
        address := data.address.orElse (fun _ => o.address)
        district_code := data.district_code.orElse (fun _ => o.district_code)
        house_type_code := data.house_type_code.orElse (fun _ => o.house_type_code)
        calculator_input := data.calculator_input.orElse (fun _ => o.calculator_input) }
    .ok { o1 with
      estimated_price :=
        priceFn o1.district_code o1.house_type_code (o1.calculator_input.getD []) }
  else
    .error "Order can be edited only in draft/submitted status"

/-- `AdminUpdateOrderRequest` (app/schemas/orders.py). -/
structure AdminUpdateOrderRequest where
  status : Option OrderStatus
  current_department_code : Option String
  estimated_price : Option ℚ
  total_price : Option ℚ
  planned_visit_at : Option Nat
  completed_at : Option Nat

/-- The admin `PATCH /admin/orders/:id` endpoint (admin_orders.py
`update_order`): a supplied status goes through `add_status_history`; every
other supplied field is overwritten directly; `completed_at` is only touched
when explicitly supplied. -/
def admin_update_order {P : Type} (o : OrderRec P) (admin : String)
    (data : AdminUpdateOrderRequest) : OrderRec P :=
  let o1 := match data.status with
    | some st => add_status_history o st (some admin) none
    | none => o
  { o1 with
    current_department_code :=
      data.current_department_code.orElse (fun _ => o1.current_department_code)
    estimated_price := data.estimated_price.orElse (fun _ => o1.estimated_price)
    total_price := data.total_price.orElse (fun _ => o1.total_price)
    planned_visit_at := data.planned_visit_at.orElse (fun _ => o1.planned_visit_at)
    completed_at := data.completed_at.orElse (fun _ => o1.completed_at) }

/-- `admin_send_for_revision` (order_service.py). -/
def admin_send_for_revision {P : Type} (o : OrderRec P) (admin : String)
    (comment : String) : OrderRec P :=
  add_status_history o .SUBMITTED (some admin) (some comment)

/-- `admin_approve_order` (order_service.py): transitions to COMPLETED and
touches nothing else (in particular not `completed_at`). -/
def admin_approve_order {P : Type} (o : OrderRec P) (admin : String)
    (comment : Option String) : OrderRec P :=
  add_status_history o .COMPLETED (some admin) comment

/-- `admin_reject_order` (order_service.py). -/
def admin_reject_order {P : Type} (o : OrderRec P) (admin : String)
    (comment : String) : OrderRec P :=
  add_status_history o .REJECTED (some admin) (some comment)

/-- The admin `POST /admin/orders/:id/comment` endpoint: appends a history
row at the order's current status. -/
def admin_add_comment {P : Type} (o : OrderRec P) (admin : String)
    (comment : String) : OrderRec P :=
  add_status_history o o.status (some admin) (some comment)

/-- `assign_executor` (order_service.py): adopts the executor's department
when the order has none, then transitions to EXECUTOR_ASSIGNED. -/
def assign_executor {P : Type} (o : OrderRec P) (assigned_by : Option String)
    (executorDept : Option String) : OrderRec P :=
  add_status_history
    { o with current_department_code :=
        o.current_department_code.orElse (fun _ => executorDept) }
    .EXECUTOR_ASSIGNED assigned_by none

/-- `executor_take_order` (order_service.py), the accept append; when no
assignment existed the code first runs `assign_executor`, which is the
composition of an `assign` step with this one. -/
def executor_take_order {P : Type} (o : OrderRec P) (executor : String) : OrderRec P :=
  add_status_history o .EXECUTOR_ASSIGNED (some executor) none

/-- `executor_decline_order` (order_service.py), happy path (an assignment
exists; otherwise the function raises 404 before mutating anything). -/
def executor_decline_order {P : Type} (o : OrderRec P) (executor : String) : OrderRec P :=
  add_status_history o .REJECTED (some executor) none

/-- `schedule_visit` (order_service.py): sets `planned_visit_at` and
transitions to VISIT_SCHEDULED in the same commit. -/
def schedule_visit {P : Type} (o : OrderRec P) (executor : String)
    (start : Nat) : OrderRec P :=
  add_status_history { o with planned_visit_at := some start }
    .VISIT_SCHEDULED (some executor) none

/-- `update_visit` (order_service.py) when the supplied status string parses
to a valid `OrderStatus`: updates `planned_visit_at` (keeping the old value
when no start is supplied) and drives a status transition. -/
def update_visit_with_status {P : Type} (o : OrderRec P) (start : Option Nat)
    (st : OrderStatus) : OrderRec P :=
  add_status_history
    { o with planned_visit_at := start.orElse (fun _ => o.planned_visit_at) }
    st none none

/-- `update_visit` without a (valid) status value: only `planned_visit_at`
changes; no history row is written. -/
def update_visit_without_status {P : Type} (o : OrderRec P)
    (start : Option Nat) : OrderRec P :=
  { o with planned_visit_at := start.orElse (fun _ => o.planned_visit_at) }

/-- `executor_approve_plan` (order_service.py): synthesizes a FINAL plan
version from the latest one (when any exists) and transitions to
READY_FOR_APPROVAL. -/
def executor_approve_plan {P : Type} (o : OrderRec P) (executor : String)
    (comment : Option String) (newId newTime : Nat) : OrderRec P :=
  add_status_history
    { o with plan_versions :=
        executor_approve_plan_store o.plan_versions comment executor newId newTime }
    .READY_FOR_APPROVAL (some executor) comment

/-- `executor_edit_plan` (order_service.py): appends an EXECUTOR_EDITED plan
version and transitions to AWAITING_CLIENT_APPROVAL. -/
def executor_edit_plan {P : Type} (o : OrderRec P) (executor : String)
    (planDoc : P) (comment : String) (newId newTime : Nat) : OrderRec P :=
  add_status_history
    { o with plan_versions :=
        executor_edit_plan_store o.plan_versions planDoc comment executor newId newTime }
    .AWAITING_CLIENT_APPROVAL (some executor)
    (some ("План отредактирован исполнителем. " ++ comment))

/-- `executor_reject_plan` (order_service.py): transitions to
REJECTED_BY_EXECUTOR with the rejection comment, concatenating the itemized
issues list when one is supplied (`if issues:` is Python truthiness). -/
def executor_reject_plan {P : Type} (o : OrderRec P) (executor : String)
    (comment : String) (issues : Option (List String)) : OrderRec P :=
  let rejection := match issues with
    | some is =>
      if is.isEmpty then comment
      else comment ++ "\nЗамечания:\n"
        ++ String.intercalate "\n" (is.map (fun issue => "- " ++ issue))
    | none => comment
  add_status_history o .REJECTED_BY_EXECUTOR (some executor) (some rejection)

/-- The client `POST /client/orders/:id/plan/changes` endpoint saves a plan
version; it writes no history row and leaves the status untouched. -/
def save_plan_version {P : Type} (o : OrderRec P) (vt : String) (planDoc : P)
    (comment : Option String) (creator : Option String)
    (newId newTime : Nat) : OrderRec P :=
  { o with plan_versions :=
      add_plan_version o.plan_versions vt planDoc comment creator newId newTime }

/-- One transition operation on an order, as enumerated in the spec's
lifecycle section.  Guard-failing calls raise before any mutation and hence
produce no step.  A take on an order with no prior assignment performs the
`assign_executor` body first, i.e. it is the composition of an `assign` step
and a `take` step. -/
inductive Step {P : Type} (priceFn : PriceFn) : OrderRec P → OrderRec P → Prop where
  | clientUpdate (o : OrderRec P) (data : UpdateOrderRequest) (o' : OrderRec P)
      (h : update_order_by_client priceFn o data = .ok o') : Step priceFn o o'
  | assign (o : OrderRec P) (assigned_by executorDept : Option String) :
      Step priceFn o (assign_executor o assigned_by executorDept)
  | take (o : OrderRec P) (executor : String) :
      Step priceFn o (executor_take_order o executor)
  | decline (o : OrderRec P) (executor : String) :
      Step priceFn o (executor_decline_order o executor)
  | scheduleVisit (o : OrderRec P) (executor : String) (start : Nat) :
      Step priceFn o (schedule_visit o executor start)
  | visitWithStatus (o : OrderRec P) (start : Option Nat) (st : OrderStatus) :
      Step priceFn o (update_visit_with_status o start st)
  | visitWithoutStatus (o : OrderRec P) (start : Option Nat) :
      Step priceFn o (update_visit_without_status o start)
  | approvePlan (o : OrderRec P) (executor : String) (comment : Option String)
      (newId newTime : Nat) :
      Step priceFn o (executor_approve_plan o executor comment newId newTime)
  | editPlan (o : OrderRec P) (executor : String) (planDoc : P) (comment : String)
      (newId newTime : Nat) :
      Step priceFn o (executor_edit_plan o executor planDoc comment newId newTime)
  | rejectPlan (o : OrderRec P) (executor : String) (comment : String)
      (issues : Option (List String)) :
      Step priceFn o (executor_reject_plan o executor comment issues)
  | sendForRevision (o : OrderRec P) (admin : String) (comment : String) :
      Step priceFn o (admin_send_for_revision o admin comment)
  | adminApprove (o : OrderRec P) (admin : String) (comment : Option String) :
      Step priceFn o (admin_approve_order o admin comment)
  | adminReject (o : OrderRec P) (admin : String) (comment : String) :
      Step priceFn o (admin_reject_order o admin comment)
  | adminComment (o : OrderRec P) (admin : String) (comment : String) :
      Step priceFn o (admin_add_comment o admin comment)
  | adminUpdate (o : OrderRec P) (admin : String) (data : AdminUpdateOrderRequest) :
      Step priceFn o (admin_update_order o admin data)
  | savePlan (o : OrderRec P) (vt : String) (planDoc : P) (comment creator : Option String)
      (newId newTime : Nat) :
      Step priceFn o (save_plan_version o vt planDoc comment creator newId newTime)

/-- Orders observable through the public API: created by `create_order` and
evolved by any sequence of transition operations. -/
inductive Reachable {P : Type} (priceFn : PriceFn) : OrderRec P → Prop where
  | created (client : String) (data : CreateOrderRequest) :
      Reachable priceFn (create_order priceFn client data)
  | step (o o' : OrderRec P) :
      Reachable priceFn o → Step priceFn o o' → Reachable priceFn o'

/-- The history/status consistency invariant: the order's `status` equals the
status recorded in the most recent history entry. -/
def histConsistent {P : Type} (o : OrderRec P) : Prop :=
  o.history.getLast?.map HistoryEntry.hstatus = some o.status

theorem histConsistent_add_status_history {P : Type} (o : OrderRec P)
    (st : OrderStatus) (actor comment : Option String) :
    histConsistent (add_status_history o st actor comment) := by
  unfold histConsistent add_status_history
  simp

theorem update_order_by_client_ok_frame {P : Type} (priceFn : PriceFn)
    (o : OrderRec P) (data : UpdateOrderRequest) (o' : OrderRec P)
    (h : update_order_by_client priceFn o data = .ok o') :
    o'.status = o.status ∧ o'.history = o.history := by
  unfold update_order_by_client at h
  by_cases hst : o.status = .DRAFT ∨ o.status = .SUBMITTED
  · simp only [if_pos hst] at h
    cases h
    exact ⟨rfl, rfl⟩
  · simp [if_neg hst] at h

/-- C1: after every transition operation on an order (create, assign
executor, executor take/decline, schedule visit, visit update, executor
approve/edit/reject plan, admin send-for-revision/approve/reject/add-comment,
admin direct status update), the order's status equals the status of the most
recent entry of its status history: every status write goes through
`add_status_history`, which writes both in one commit. -/
theorem order_status_matches_latest_history {P : Type} (priceFn : PriceFn)
    (o : OrderRec P) (h : Reachable priceFn o) : histConsistent o := by
  induction h with
  | created client data =>
    unfold histConsistent create_order
    simp
  | step o o' _ hstep ih =>
    cases hstep with
    | clientUpdate data o' hok =>
      obtain ⟨hs, hh⟩ := update_order_by_client_ok_frame priceFn o data o' hok
      unfold histConsistent at ih ⊢
      rw [hs, hh]
      exact ih
    | assign ab dep => exact histConsistent_add_status_history _ _ _ _
    | take e => exact histConsistent_add_status_history _ _ _ _
    | decline e => exact histConsistent_add_status_history _ _ _ _
    | scheduleVisit e start => exact histConsistent_add_status_history _ _ _ _
    | visitWithStatus start st => exact histConsistent_add_status_history _ _ _ _
    | visitWithoutStatus start =>
      unfold histConsistent at ih ⊢
      simpa [update_visit_without_status] using ih
    | approvePlan e c i t => exact histConsistent_add_status_history _ _ _ _
    | editPlan e pd c i t => exact histConsistent_add_status_history _ _ _ _
    | rejectPlan e c issues => exact histConsistent_add_status_history _ _ _ _
    | sendForRevision a c => exact histConsistent_add_status_history _ _ _ _
    | adminApprove a c => exact histConsistent_add_status_history _ _ _ _
    | adminReject a c => exact histConsistent_add_status_history _ _ _ _
    | adminComment a c => exact histConsistent_add_status_history _ _ _ _
    | adminUpdate a data =>
      unfold histConsistent admin_update_order
      unfold histConsistent at ih
      cases hst : data.status with
      | some st =>
        simp [hst, add_status_history]
      | none =>
        simp only [hst]
        exact ih
    | savePlan vt pd c cr i t =>
      unfold histConsistent at ih ⊢
      simpa [save_plan_version] using ih

/-- Witness for C1: a concrete order created and then admin-approved
satisfies the invariant. -/
theorem order_status_matches_latest_history_witness :
    histConsistent (admin_approve_order
      (create_order (P := Unit) (fun _ _ _ => none) "client"
        ⟨"Kitchen remodel", none, none, none, none, none⟩)
      "admin" none) :=
  order_status_matches_latest_history (fun _ _ _ => none) _
    (Reachable.step _ _ (Reachable.created "client" _)
      (Step.adminApprove _ "admin" none))

theorem countType_cons {P : Type} (r : PlanRow P) (store : List (PlanRow P))
    (t : String) :
    countType (r :: store) t
      = (if r.version_type = t then 1 else 0) + countType store t := by
  by_cases h : r.version_type = t <;>
    simp [countType, List.filter_cons, h, Nat.add_comm]

theorem countType_append_single {P : Type} (store : List (PlanRow P))
    (r : PlanRow P) (t : String) :
    countType (store ++ [r]) t
      = countType store t + (if r.version_type = t then 1 else 0) := by
  by_cases h : r.version_type = t <;>
    simp [countType, List.filter_append, List.filter_cons, h]

/-- The in-place update step never changes any per-type version count. -/
theorem countType_update_first_matching {P : Type} (vt : String) (planDoc : P)
    (comment creator : Option String) (store : List (PlanRow P)) (t : String) :
    countType (update_first_matching vt planDoc comment creator store) t
      = countType store t := by
  induction store with
  | nil => rfl
  | cons r rest ih =>
    unfold update_first_matching
    by_cases h : r.version_type = vt
    · simp [h, countType_cons]
    · simp [h, countType_cons, ih]

/-- The upsert preserves the at-most-one-row-per-type bound. -/
theorem countType_add_plan_version_le {P : Type} (store : List (PlanRow P))
    (vt : String) (planDoc : P) (comment creator : Option String)
    (newId newTime : Nat) (t : String) (h : countType store t ≤ 1) :
    countType (add_plan_version store vt planDoc comment creator newId newTime) t ≤ 1 := by
  unfold add_plan_version
  by_cases hany : store.any (fun r => r.version_type = vt) = true
  · simpa [hany, countType_update_first_matching] using h
  · simp only [hany, if_neg, Bool.false_eq_true, not_false_eq_true,
      countType_append_single]
    by_cases hvt : vt = t
    · have hzero : countType store t = 0 := by
        rw [Bool.not_eq_true, List.any_eq_false] at hany
        subst hvt
        simp only [countType, List.length_eq_zero, List.filter_eq_nil_iff]
        intro r hr
        simpa using hany r hr
      simp [hzero, hvt]
    · simpa [hvt] using h

/-- Whether a plan-save operation is the save-version upsert. -/
def PlanOp.isSave {P : Type} : PlanOp P → Prop
  | .save _ _ _ _ _ _ => True
  | .executorEdit _ _ _ _ _ => False
  | .executorApprove _ _ _ _ => False

/-- C2 (amended): for every order and version type T, any sequence of
save-version upsert operations keeps the number of stored plan versions of
type T at most 1.  The executor edit-plan and approve-plan operations are not
upserts: they append a fresh EXECUTOR_EDITED / FINAL row unconditionally and
can therefore create duplicates (see the counterexample). -/
theorem single_version_per_type_for_upserts {P : Type} (ops : List (PlanOp P)) :
    ∀ store : List (PlanRow P), (∀ t, countType store t ≤ 1) →
      (∀ op ∈ ops, op.isSave) →
      ∀ t, countType (applyPlanOps store ops) t ≤ 1 := by
  induction ops with
  | nil =>
    intro store h _ t
    exact h t
  | cons op rest ih =>
    intro store h hsave t
    have hop := hsave op (by simp)
    cases op with
    | save vt pd c cr i tm =>
      refine ih (add_plan_version store vt pd c cr i tm) ?_ ?_ t
      · intro t'
        exact countType_add_plan_version_le store vt pd c cr i tm t' (h t')
      · intro op' hm
        exact hsave op' (by simp [hm])
    | executorEdit pd c e i tm => exact absurd hop (by simp [PlanOp.isSave])
    | executorApprove c e i tm => exact absurd hop (by simp [PlanOp.isSave])

/-- Witness for C2 (amended): two upserts of the same type starting from an
empty store leave a single ORIGINAL row. -/
theorem single_version_per_type_for_upserts_witness :
    countType (applyPlanOps (P := Unit) []
      [.save "ORIGINAL" () none none 1 1, .save "ORIGINAL" () (some "v2") none 2 2])
      "ORIGINAL" ≤ 1 :=
  single_version_per_type_for_upserts
    [.save "ORIGINAL" () none none 1 1, .save "ORIGINAL" () (some "v2") none 2 2]
    [] (fun _ => by simp [countType]) (by intro op hm; fin_cases hm <;> trivial)
    "ORIGINAL"

/-- Counterexample for C2 as stated: two executor edit-plan saves on the same
order leave two stored EXECUTOR_EDITED versions, violating the claimed
`count ≤ 1` bound. -/
theorem single_version_per_type_counterexample :
    ¬ countType (applyPlanOps (P := Unit) []
        [.executorEdit () "moved wall" "executor" 1 1,
         .executorEdit () "moved wall again" "executor" 2 2])
      "EXECUTOR_EDITED" ≤ 1 := by
  decide

theorem update_first_matching_append {P : Type} (pre post : List (PlanRow P))
    (r : PlanRow P) (vt : String) (planDoc : P) (comment creator : Option String)
    (hpre : ∀ r' ∈ pre, r'.version_type ≠ vt) (hr : r.version_type = vt) :
    update_first_matching vt planDoc comment creator (pre ++ r :: post)
      = pre ++ { r with plan := planDoc
                        comment := if strTruthy comment then comment else r.comment
                        created_by := creator.orElse (fun _ => r.created_by) } :: post := by
  induction pre with
  | nil => simp [update_first_matching, hr]
  | cons p rest ih =>
    have hp : p.version_type ≠ vt := hpre p (by simp)
    simp only [List.cons_append, update_first_matching, if_neg hp]
    exact congrArg (fun l => p :: l) (ih (fun r' hm => hpre r' (by simp [hm])))

/-- C5 (amended): on a save-version upsert, if a row already exists for the
given (order, version_type) pair, the first matching row keeps its id,
created_at and is_applied flag; its plan is overwritten; its comment is
overwritten only when the supplied comment is non-null and non-empty
(otherwise retained); its creator is overwritten only when a creator is
supplied (otherwise retained).  When no row matches, a new row is appended
with `is_applied = true`. -/
theorem add_plan_version_semantics {P : Type} :
    (∀ (pre post : List (PlanRow P)) (r : PlanRow P) (vt : String) (planDoc : P)
        (comment creator : Option String) (newId newTime : Nat),
        (∀ r' ∈ pre, r'.version_type ≠ vt) → r.version_type = vt →
        add_plan_version (pre ++ r :: post) vt planDoc comment creator newId newTime
          = pre ++ { r with plan := planDoc
                            comment := if strTruthy comment then comment else r.comment
                            created_by := creator.orElse (fun _ => r.created_by) } :: post)
  ∧ (∀ (store : List (PlanRow P)) (vt : String) (planDoc : P)
        (comment creator : Option String) (newId newTime : Nat),
        (∀ r' ∈ store, r'.version_type ≠ vt) →
        add_plan_version store vt planDoc comment creator newId newTime
          = store ++ [⟨newId, vt, planDoc, true, comment, creator, newTime⟩]) := by
  constructor
  · intro pre post r vt planDoc comment creator newId newTime hpre hr
    have hany : (pre ++ r :: post).any (fun x => x.version_type = vt) = true := by
      simp only [List.any_append, List.any_cons, hr]
      simp
    unfold add_plan_version
    rw [if_pos hany]
    exact update_first_matching_append pre post r vt planDoc comment creator hpre hr
  · intro store vt planDoc comment creator newId newTime hnone
    have hany : store.any (fun x => x.version_type = vt) = false := by
      rw [List.any_eq_false]
      intro r hm
      simpa using hnone r hm
    unfold add_plan_version
    rw [hany]
    simp

/-- Witness for C5 (amended): both branches at concrete stores. -/
theorem add_plan_version_semantics_witness :
    (add_plan_version (P := Unit)
        [⟨1, "ORIGINAL", (), true, some "old", some "alice", 10⟩]
        "ORIGINAL" () (some "v2") (some "bob") 2 20
      = [⟨1, "ORIGINAL", (), true, some "v2", some "bob", 10⟩])
  ∧ (add_plan_version (P := Unit) [] "MODIFIED" () none none 3 30
      = [⟨3, "MODIFIED", (), true, none, none, 30⟩]) := by
  constructor
  · have h := (add_plan_version_semantics (P := Unit)).1 []
      [] ⟨1, "ORIGINAL", (), true, some "old", some "alice", 10⟩
      "ORIGINAL" () (some "v2") (some "bob") 2 20 (by simp) (by simp)
    simpa [strTruthy, Option.orElse] using h
  · have h := (add_plan_version_semantics (P := Unit)).2 []
      "MODIFIED" () none none 3 30 (by simp)
    simpa using h

/-- Counterexample for C5 as stated: the claim says the existing row's
comment and creator are overwritten with the supplied values, but an upsert
supplying no comment and no creator leaves the old comment and creator in
place (the code only overwrites them when truthy). -/
theorem add_plan_version_overwrite_counterexample :
    (add_plan_version (P := Unit)
        [⟨1, "ORIGINAL", (), true, some "old", some "alice", 10⟩]
        "ORIGINAL" () none none 2 20).map PlanRow.comment
      = [some "old"] := by
  decide

/-- C6: the client update is rejected with a precondition error (and the
order left untouched — the guard raises before any mutation) unless the order
is in DRAFT or SUBMITTED; in DRAFT/SUBMITTED it succeeds, overwrites exactly
the supplied fields, recomputes the estimated price from the updated order,
and appends no history entry (status, history and all unsupplied fields are
unchanged). -/
theorem update_order_by_client_semantics {P : Type} (priceFn : PriceFn)
    (o : OrderRec P) (data : UpdateOrderRequest) :
    ((o.status ≠ .DRAFT ∧ o.status ≠ .SUBMITTED) →
      update_order_by_client priceFn o data
        = .error "Order can be edited only in draft/submitted status")
  ∧ ((o.status = .DRAFT ∨ o.status = .SUBMITTED) →
      ∃ o', update_order_by_client priceFn o data = .ok o'
        ∧ o'.title = data.title.getD o.title
        ∧ o'.description = data.description.orElse (fun _ => o.description)
        ∧ o'.address = data.address.orElse (fun _ => o.address)
        ∧ o'.district_code = data.district_code.orElse (fun _ => o.district_code)
        ∧ o'.house_type_code = data.house_type_code.orElse (fun _ => o.house_type_code)
        ∧ o'.calculator_input = data.calculator_input.orElse (fun _ => o.calculator_input)
        ∧ o'.estimated_price
            = priceFn o'.district_code o'.house_type_code (o'.calculator_input.getD [])
        ∧ o'.status = o.status
        ∧ o'.history = o.history
        ∧ o'.total_price = o.total_price
        ∧ o'.planned_visit_at = o.planned_visit_at
        ∧ o'.completed_at = o.completed_at
        ∧ o'.current_department_code = o.current_department_code
        ∧ o'.plan_versions = o.plan_versions) := by
  constructor
  · intro ⟨h1, h2⟩
    unfold update_order_by_client
    rw [if_neg]
    rintro (h | h) <;> [exact h1 h; exact h2 h]
  · intro hst
    unfold update_order_by_client
    rw [if_pos hst]
    exact ⟨_, rfl, rfl, rfl, rfl, rfl, rfl, rfl, rfl, rfl, rfl, rfl, rfl, rfl, rfl, rfl⟩

/-- Witness for C6: a COMPLETED order rejects the client update, and a
SUBMITTED order accepts it. -/
theorem update_order_by_client_semantics_witness :
    (update_order_by_client (P := Unit) (fun _ _ _ => none)
        ⟨"t", none, none, none, none, .COMPLETED, none, none, none, none, none,
          none, [], []⟩
        ⟨some "new", none, none, none, none, none⟩
      = .error "Order can be edited only in draft/submitted status")
  ∧ ∃ o', update_order_by_client (P := Unit) (fun _ _ _ => none)
        ⟨"t", none, none, none, none, .SUBMITTED, none, none, none, none, none,
          none, [], []⟩
        ⟨some "new", none, none, none, none, none⟩
      = .ok o' ∧ o'.title = "new" := by
  constructor
  · exact (update_order_by_client_semantics (fun _ _ _ => none) _ _).1
      (by constructor <;> simp)
  · obtain ⟨o', hok, htitle, _⟩ :=
      (update_order_by_client_semantics (P := Unit) (fun _ _ _ => none)
        ⟨"t", none, none, none, none, .SUBMITTED, none, none, none, none, none,
          none, [], []⟩
        ⟨some "new", none, none, none, none, none⟩).2 (Or.inr rfl)
    exact ⟨o', hok, by simpa using htitle⟩

/-- C8: neither the admin approve operation nor an admin direct field update
that does not supply `completed_at` ever changes `completed_at` (so an order
completed through either path keeps a null `completed_at`); the field changes
only when explicitly supplied in an admin field-update request. -/
theorem admin_completed_at_frame {P : Type} (o : OrderRec P) (admin : String)
    (c : Option String) (data : AdminUpdateOrderRequest) :
    (admin_approve_order o admin c).completed_at = o.completed_at
  ∧ (admin_approve_order o admin c).status = .COMPLETED
  ∧ (data.completed_at = none →
      (admin_update_order o admin data).completed_at = o.completed_at)
  ∧ (∀ t, data.completed_at = some t →
      (admin_update_order o admin data).completed_at = some t)
  ∧ (data.status = some .COMPLETED →
      (admin_update_order o admin data).status = .COMPLETED) := by
  refine ⟨rfl, rfl, ?_, ?_, ?_⟩
  · intro hnone
    unfold admin_update_order
    cases hst : data.status <;> simp [hnone, add_status_history]
  · intro t ht
    unfold admin_update_order
    cases hst : data.status <;> simp [ht]
  · intro hst
    unfold admin_update_order
    simp [hst, add_status_history]

/-- Witness for C8: an admin direct update setting status COMPLETED without
`completed_at` on an order whose `completed_at` is null leaves it null while
the status becomes COMPLETED. -/
theorem admin_completed_at_frame_witness :
    ((admin_update_order (P := Unit)
        ⟨"t", none, none, none, none, .READY_FOR_APPROVAL, none, none, none,
          none, none, none, [], []⟩
        "admin" ⟨some .COMPLETED, none, none, none, none, none⟩).completed_at
      = none)
  ∧ ((admin_update_order (P := Unit)
        ⟨"t", none, none, none, none, .READY_FOR_APPROVAL, none, none, none,
          none, none, none, [], []⟩
        "admin" ⟨some .COMPLETED, none, none, none, none, none⟩).status
      = .COMPLETED) := by
  constructor
  · exact (admin_completed_at_frame (P := Unit)
      ⟨"t", none, none, none, none, .READY_FOR_APPROVAL, none, none, none,
        none, none, none, [], []⟩
      "admin" none ⟨some .COMPLETED, none, none, none, none, none⟩).2.2.1 rfl
  · exact (admin_completed_at_frame (P := Unit)
      ⟨"t", none, none, none, none, .READY_FOR_APPROVAL, none, none, none,
        none, none, none, [], []⟩
      "admin" none ⟨some .COMPLETED, none, none, none, none, none⟩).2.2.2.2 rfl

/-- The fields of a raw plan element that the diff engine reads: `id`,
`geometry`, `role`, `zoneType` (`elem.get(...)` on the stored JSON dict).
The geometry payload is an opaque type parameter `G` compared by structural
equality, exactly as Python `!=` compares the parsed JSON values. -/
structure PElem (G : Type) where
  eid : String
  geometry : Option G
  role : Option String
  zoneType : Option String
deriving DecidableEq, Repr

/-- Result of `_calculate_plan_diff`. -/
structure PlanDiff where
  deleted : List String
  added : List String
  modified : List String
deriving DecidableEq, Repr

/-- Key order of a Python dict built by comprehension: first occurrence of
each key wins for position (the value is overwritten in place on duplicate
keys, so the last value wins — see `pyLast`). -/
def firstDedup {α : Type} [DecidableEq α] : List α → List α
  | [] => []
  | a :: l => a :: (firstDedup l).filter (fun b => b ≠ a)

/-- Value stored under key `i` in the Python dict
`\x7belem.get("id"): elem for elem in plan.get("elements", [])\x7d`:
the last element carrying that id. -/
def pyLast {G : Type} (elems : List (PElem G)) (i : String) : Option (PElem G) :=
  (elems.filter (fun e => e.eid = i)).getLast?

/-- The modification test of the diff engine: `geometry`, `role` or
`zoneType` differ. -/
def elemDiffersB {G : Type} [DecidableEq G] (a b : PElem G) : Bool :=
  decide (a.geometry ≠ b.geometry) || decide (a.role ≠ b.role)
    || decide (a.zoneType ≠ b.zoneType)

/-- `_calculate_plan_diff` (client_orders.py): index both plans by element
id (last occurrence wins), then emit ids only in the original as `deleted`,
ids only in the modified as `added`, and ids in both whose geometry, role or
zoneType differ as `modified`.  The Python `modified` loop iterates a hash
set intersection whose order is interpreter-dependent; the embedding fixes
the deterministic original-key order for it. -/
def calculate_plan_diff {G : Type} [DecidableEq G]
    (original modified : List (PElem G)) : PlanDiff :=
  let originalKeys := firstDedup (original.map PElem.eid)
  let modifiedKeys := firstDedup (modified.map PElem.eid)
  ⟨originalKeys.filter (fun i => !(decide (i ∈ modifiedKeys))),
   modifiedKeys.filter (fun i => !(decide (i ∈ originalKeys))),
   originalKeys.filter (fun i =>
     decide (i ∈ modifiedKeys) &&
       match pyLast original i, pyLast modified i with
       | some a, some b => elemDiffersB a b
       | _, _ => false)⟩

/-- `_calculate_plan_diff_executor` (executor_orders.py): a line-for-line
duplicate of the client diff function. -/
def calculate_plan_diff_executor {G : Type} [DecidableEq G]
    (original modified : List (PElem G)) : PlanDiff :=
  let originalKeys := firstDedup (original.map PElem.eid)
  let modifiedKeys := firstDedup (modified.map PElem.eid)
  ⟨originalKeys.filter (fun i => !(decide (i ∈ modifiedKeys))),
   modifiedKeys.filter (fun i => !(decide (i ∈ originalKeys))),
   originalKeys.filter (fun i =>
     decide (i ∈ modifiedKeys) &&
       match pyLast original i, pyLast modified i with
       | some a, some b => elemDiffersB a b
       | _, _ => false)⟩

/-- C10: the client-endpoint diff and the executor-endpoint diff are
extensionally equal on every pair of plan documents. -/
theorem calculate_plan_diff_eq_executor {G : Type} [DecidableEq G]
    (original modified : List (PElem G)) :
    calculate_plan_diff original modified
      = calculate_plan_diff_executor original modified := rfl

/-- C9: diff symmetry — the ids added going forwards are exactly the ids
deleted going backwards, and vice versa, for any two plan documents. -/
theorem calculate_plan_diff_symmetry {G : Type} [DecidableEq G]
    (a b : List (PElem G)) :
    (calculate_plan_diff a b).added = (calculate_plan_diff b a).deleted
  ∧ (calculate_plan_diff a b).deleted = (calculate_plan_diff b a).added :=
  ⟨rfl, rfl⟩

theorem mem_firstDedup {α : Type} [DecidableEq α] (l : List α) (a : α) :
    a ∈ firstDedup l ↔ a ∈ l := by
  induction l with
  | nil => simp [firstDedup]
  | cons b l ih =>
    by_cases h : a = b
    · subst h
      simp [firstDedup]
    · simp [firstDedup, h, ih]

theorem pyLast_isSome {G : Type} (elems : List (PElem G)) (i : String)
    (h : i ∈ elems.map PElem.eid) : ∃ x, pyLast elems i = some x := by
  obtain ⟨e, he, hei⟩ := List.mem_map.mp h
  have hmem : e ∈ elems.filter (fun x => x.eid = i) :=
    List.mem_filter.mpr ⟨he, by simp [hei]⟩
  have hne : elems.filter (fun x => x.eid = i) ≠ [] :=
    List.ne_nil_of_mem hmem
  obtain ⟨x, hx⟩ := Option.isSome_iff_exists.mp
    (List.getLast?_isSome.mpr hne)
  exact ⟨x, hx⟩

/-- Concrete plan A of Scenario 4 (elements w1, w2; geometry as the parsed
coordinate array). -/
def planA : List (PElem (List Int)) :=
  [⟨"w1", some [0, 0, 1000, 0], some "EXISTING", none⟩,
   ⟨"w2", some [0, 0, 0, 1000], some "EXISTING", none⟩]

/-- Concrete plan B of Scenario 4 (w1 with changed geometry, new w3). -/
def planB : List (PElem (List Int)) :=
  [⟨"w1", some [0, 0, 900, 0], some "EXISTING", none⟩,
   ⟨"w3", some [1, 2, 3, 4], none, none⟩]

/-- C4: the diff result's `deleted` is exactly the ids present only in the
original, `added` exactly the ids present only in the modified, and an id
present in both is flagged `modified` iff the two elements picked by
last-occurrence-wins indexing differ on geometry, role or zoneType; on the
concrete Scenario 4 plans the result is
deleted = [w2], added = [w3], modified = [w1]. -/
theorem calculate_plan_diff_characterization :
    (∀ (G : Type) [DecidableEq G] (a b : List (PElem G)) (i : String),
      i ∈ (calculate_plan_diff a b).deleted ↔
        (i ∈ a.map PElem.eid ∧ i ∉ b.map PElem.eid))
  ∧ (∀ (G : Type) [DecidableEq G] (a b : List (PElem G)) (i : String),
      i ∈ (calculate_plan_diff a b).added ↔
        (i ∈ b.map PElem.eid ∧ i ∉ a.map PElem.eid))
  ∧ (∀ (G : Type) [DecidableEq G] (a b : List (PElem G)) (i : String),
      i ∈ a.map PElem.eid → i ∈ b.map PElem.eid →
      (i ∈ (calculate_plan_diff a b).modified ↔
        ∃ x y, pyLast a i = some x ∧ pyLast b i = some y ∧
          (x.geometry ≠ y.geometry ∨ x.role ≠ y.role ∨ x.zoneType ≠ y.zoneType)))
  ∧ calculate_plan_diff planA planB = ⟨["w2"], ["w3"], ["w1"]⟩ := by
  refine ⟨?_, ?_, ?_, ?_⟩
  · intro G _ a b i
    simp [calculate_plan_diff, List.mem_filter, mem_firstDedup]
  · intro G _ a b i
    simp [calculate_plan_diff, List.mem_filter, mem_firstDedup]
  · intro G _ a b i ha hb
    obtain ⟨x, hx⟩ := pyLast_isSome a i ha
    obtain ⟨y, hy⟩ := pyLast_isSome b i hb
    simp only [calculate_plan_diff, List.mem_filter, mem_firstDedup, hx, hy,
      Bool.and_eq_true, decide_eq_true_eq]
    constructor
    · rintro ⟨-, -, hdiff⟩
      refine ⟨x, y, rfl, rfl, ?_⟩
      simp only [elemDiffersB, Bool.or_eq_true, decide_eq_true_eq] at hdiff
      tauto
    · rintro ⟨x', y', hx', hy', hdiff⟩
      cases hx'
      cases hy'
      refine ⟨ha, hb, ?_⟩
      simp only [elemDiffersB, Bool.or_eq_true, decide_eq_true_eq]
      tauto
  · decide

/-- An opening of a wall, as read by `_split_wall_segments`: a position range
in meters along the wall. -/
structure OpeningQ where
  from_m : ℚ
  to_m : ℚ
deriving DecidableEq, Repr

/-- Two openings do not overlap (they may touch at an endpoint). -/
def OpeningDisjoint (a b : OpeningQ) : Prop :=
  a.to_m ≤ b.from_m ∨ b.to_m ≤ a.from_m

/-- `sorted(openings, key=lambda o: o.get("from_m", 0))`: a stable sort by
`from_m` (Lean's insertion sort is stable, like Python's sort). -/
def sortOpenings (ops : List OpeningQ) : List OpeningQ :=
  ops.insertionSort (fun a b => a.from_m ≤ b.from_m)

/-- The cursor walk of `_split_wall_segments` over the sorted openings,
producing the solid spans (in meters from the wall start) that remain
between the openings, including the trailing span after the last opening.
The clamping of each opening to `[0, length_m]` and the
`cursor = max(cursor, end)` update mirror the Python loop body. -/
def walkOpenings (lengthM : ℚ) : ℚ → List OpeningQ → List (ℚ × ℚ)
  | cursor, [] => if cursor < lengthM then [(cursor, lengthM)] else []
  | cursor, op :: rest =>
    let start0 := max 0 op.from_m
    let end0 := max start0 op.to_m
    let start1 := min start0 lengthM
    let end1 := min end0 lengthM
    (if start1 > cursor then [(cursor, start1)] else [])
      ++ walkOpenings lengthM (max cursor end1) rest

/-- The meter-domain sub-segment spans computed for one wall. -/
def splitSegments (lengthM : ℚ) (ops : List OpeningQ) : List (ℚ × ℚ) :=
  walkOpenings lengthM 0 (sortOpenings ops)

/-- Specification-side definition of the maximal gaps left in `[0, L]` by a
sorted chain of pairwise non-overlapping openings: the positive-length
intervals before, between and after the openings. -/
def gapList (lengthM : ℚ) : ℚ → List OpeningQ → List (ℚ × ℚ)
  | prev, [] => if prev < lengthM then [(prev, lengthM)] else []
  | prev, op :: rest =>
    (if prev < op.from_m then [(prev, op.from_m)] else [])
      ++ gapList lengthM op.to_m rest

/-- Number of maximal gaps left by the openings in `[0, L]`. -/
def gapCount (lengthM : ℚ) (ops : List OpeningQ) : Nat :=
  (gapList lengthM 0 (sortOpenings ops)).length

/-- Total meters covered by the openings. -/
def coverage (ops : List OpeningQ) : ℚ :=
  (ops.map (fun op => op.to_m - op.from_m)).sum

/-- A wall element with segment geometry: id, the two pixel endpoints, and
its openings. -/
structure WallSeg where
  wid : String
  x1 : ℚ
  y1 : ℚ
  x2 : ℚ
  y2 : ℚ
  openings : List OpeningQ
deriving DecidableEq, Repr

/-- Output of the splitter for one wall element: either the element passed
through unchanged, or a derived sub-segment wall (new id, four pixel
coordinates, no openings of its own). -/
inductive SplitResult where
  | original (w : WallSeg)
  | seg (sid : String) (points : List ℚ)
deriving DecidableEq, Repr

/-- Normalization of `px_per_meter` in `_split_wall_segments`: a missing,
zero or negative scale falls back to 1 (`or 1` plus the `<= 0` guard). -/
def normPxPerMeter (p : ℚ) : ℚ := if p ≤ 0 then 1 else p

/-- `point_at(offset_m)` in `_split_wall_segments`: linear interpolation
along the wall direction, converting the meter offset back to pixels. -/
def point_at (x1 y1 dx dy pxPerMeter lengthPx offset : ℚ) : ℚ × ℚ :=
  let offsetPx := offset * pxPerMeter
  let frac := offsetPx / lengthPx
  (x1 + dx * frac, y1 + dy * frac)

/-- `lengthPx` is the value `math.hypot(dx, dy)` computes: the unique
non-negative square root of `dx² + dy²`.  The splitter embedding takes it as
an input constrained by this predicate, because a square root is generally
irrational. -/
def IsHypot (dx dy h : ℚ) : Prop := 0 ≤ h ∧ h * h = dx * dx + dy * dy

/-- The per-wall branch of `_split_wall_segments` (client_orders.py) for an
element with segment geometry and exactly four coordinates: a wall with no
openings or zero pixel length passes through unchanged; otherwise the cursor
walk produces the solid spans, an empty span list keeps the original wall,
and each positive span is emitted as a sub-segment wall with id
`{original_id}_seg{k}` (braces literal) and interpolated pixel endpoints. -/
def split_wall (pxRaw lengthPx : ℚ) (w : WallSeg) : List SplitResult :=
  let pxPerMeter := normPxPerMeter pxRaw
  if w.openings.isEmpty then [.original w]
  else if lengthPx = 0 then [.original w]
  else
    let dx := w.x2 - w.x1
    let dy := w.y2 - w.y1
    let lengthM := lengthPx / pxPerMeter
    let segs := splitSegments lengthM w.openings
    if segs.isEmpty then [.original w]
    else
      segs.enum.filterMap (fun p =>
        if p.2.2 - p.2.1 ≤ 0 then none
        else some (
          let s := point_at w.x1 w.y1 dx dy pxPerMeter lengthPx p.2.1
          let e := point_at w.x1 w.y1 dx dy pxPerMeter lengthPx p.2.2
          SplitResult.seg (w.wid ++ "_seg" ++ toString (p.1 + 1)) [s.1, s.2, e.1, e.2]))

/-- Every span emitted by the cursor walk has positive length. -/
theorem walkOpenings_pos (lengthM : ℚ) (l : List OpeningQ) :
    ∀ cursor, ∀ s ∈ walkOpenings lengthM cursor l, s.1 < s.2 := by
  induction l with
  | nil =>
    intro cursor s hs
    unfold walkOpenings at hs
    split at hs
    · rcases List.mem_singleton.mp hs with rfl
      assumption
    · simp at hs
  | cons op rest ih =>
    intro cursor s hs
    unfold walkOpenings at hs
    rcases List.mem_append.mp hs with h | h
    · split at h
      · rcases List.mem_singleton.mp h with rfl
        assumption
      · simp at h
    · exact ih _ s h

/-- The lower bound the cursor must satisfy before processing a list of
openings: the first opening's start, or the wall end for the empty list. -/
def headFrom (l : List OpeningQ) (lengthM : ℚ) : ℚ :=
  match l with
  | [] => lengthM
  | op :: _ => op.from_m

/-- For in-bounds openings forming a non-overlapping chain, the clamping in
the Python loop is the identity and the cursor walk computes exactly the
maximal-gap list. -/
theorem walkOpenings_eq_gapList (lengthM : ℚ) (l : List OpeningQ) :
    ∀ cursor,
    (∀ op ∈ l, 0 ≤ op.from_m ∧ op.from_m ≤ op.to_m ∧ op.to_m ≤ lengthM) →
    l.Chain' (fun a b => a.to_m ≤ b.from_m) →
    cursor ≤ headFrom l lengthM →
    walkOpenings lengthM cursor l = gapList lengthM cursor l := by
  induction l with
  | nil =>
    intro cursor _ _ _
    rfl
  | cons op rest ih =>
    intro cursor hb hchain hcur
    obtain ⟨h0, hft, htL⟩ := hb op (by simp)
    have hcur' : cursor ≤ op.from_m := hcur
    have hs0 : max 0 op.from_m = op.from_m := max_eq_right h0
    have he0 : max op.from_m op.to_m = op.to_m := max_eq_right hft
    have hfL : op.from_m ≤ lengthM := le_trans hft htL
    have hs1 : min op.from_m lengthM = op.from_m := min_eq_left hfL
    have he1 : min op.to_m lengthM = op.to_m := min_eq_left htL
    have hmax : max cursor op.to_m = op.to_m :=
      max_eq_right (le_trans hcur' hft)
    have hnext : op.to_m ≤ headFrom rest lengthM := by
      cases rest with
      | nil => exact htL
      | cons op2 rest2 => exact (List.chain'_cons.mp hchain).1
    unfold walkOpenings gapList
    simp only [hs0, he0, hs1, he1, hmax, gt_iff_lt]
    congr 1
    exact ih op.to_m (fun o ho => hb o (by simp [ho])) hchain.tail hnext

theorem coverage_cons (op : OpeningQ) (rest : List OpeningQ) :
    coverage (op :: rest) = (op.to_m - op.from_m) + coverage rest := by
  simp [coverage]

/-- Telescoping sum: the maximal gaps of `[prev, L]` around a chain of
in-bounds openings cover exactly `L - prev` minus the opening coverage. -/
theorem gapList_sum (lengthM : ℚ) (l : List OpeningQ) :
    ∀ prev,
    (∀ op ∈ l, op.from_m ≤ op.to_m ∧ op.to_m ≤ lengthM) →
    l.Chain' (fun a b => a.to_m ≤ b.from_m) →
    prev ≤ headFrom l lengthM →
    ((gapList lengthM prev l).map (fun s => s.2 - s.1)).sum
      = lengthM - prev - coverage l := by
  induction l with
  | nil =>
    intro prev _ _ hprev
    unfold gapList
    by_cases h : prev < lengthM
    · simp [h, coverage]
    · have heq : prev = lengthM := le_antisymm hprev (not_lt.mp h)
      simp [h, heq, coverage]
  | cons op rest ih =>
    intro prev hb hchain hprev
    obtain ⟨hft, htL⟩ := hb op (by simp)
    have hnext : op.to_m ≤ headFrom rest lengthM := by
      cases rest with
      | nil => exact htL
      | cons op2 rest2 => exact (List.chain'_cons.mp hchain).1
    have hrec := ih op.to_m (fun o ho => hb o (by simp [ho])) hchain.tail hnext
    unfold gapList
    rw [List.map_append, List.sum_append, hrec, coverage_cons]
    by_cases h : prev < op.from_m
    · simp only [if_pos h, List.map_cons, List.map_nil, List.sum_cons,
        List.sum_nil]
      ring
    · have heq : prev = op.from_m := le_antisymm hprev (not_lt.mp h)
      rw [heq]
      simp only [lt_irrefl, if_false, List.map_nil, List.sum_nil]
      ring

instance : IsTotal OpeningQ (fun a b => a.from_m ≤ b.from_m) :=
  ⟨fun a b => le_total a.from_m b.from_m⟩

instance : IsTrans OpeningQ (fun a b => a.from_m ≤ b.from_m) :=
  ⟨fun _ _ _ hab hbc => le_trans hab hbc⟩

theorem sortOpenings_perm (ops : List OpeningQ) :
    (sortOpenings ops).Perm ops :=
  List.perm_insertionSort _ ops

theorem sortOpenings_sorted (ops : List OpeningQ) :
    (sortOpenings ops).Sorted (fun a b => a.from_m ≤ b.from_m) :=
  List.sorted_insertionSort _ ops

/-- Sorting by start position turns a pairwise non-overlapping family of
positive-width openings into a chain: each opening ends no later than the
next one starts. -/
theorem chain_of_sorted_disjoint (l : List OpeningQ)
    (hsort : l.Sorted (fun a b => a.from_m ≤ b.from_m))
    (hdisj : l.Pairwise OpeningDisjoint)
    (hpos : ∀ op ∈ l, op.from_m < op.to_m) :
    l.Chain' (fun a b => a.to_m ≤ b.from_m) := by
  induction l with
  | nil => simp
  | cons op rest ih =>
    rw [List.chain'_cons']
    constructor
    · intro b hb
      have hmem : b ∈ rest := List.mem_of_mem_head? hb
      have hle : op.from_m ≤ b.from_m := (List.sorted_cons.mp hsort).1 b hmem
      have hd : OpeningDisjoint op b := (List.pairwise_cons.mp hdisj).1 b hmem
      rcases hd with h | h
      · exact h
      · exfalso
        have hb2 := hpos b (by simp [hmem])
        linarith
    · exact ih (List.sorted_cons.mp hsort).2 (List.pairwise_cons.mp hdisj).2
        (fun o ho => hpos o (by simp [ho]))

/-- Meter-domain correctness of the splitter walk: for a wall of positive
meter length whose openings are in-bounds, positive-width and pairwise
non-overlapping, the emitted spans sum to the wall length minus the opening
coverage, and there are exactly as many spans as maximal gaps. -/
theorem splitSegments_spec (lengthM : ℚ) (ops : List OpeningQ)
    (hL : 0 < lengthM)
    (hb : ∀ op ∈ ops, 0 ≤ op.from_m ∧ op.from_m < op.to_m ∧ op.to_m ≤ lengthM)
    (hdisj : ops.Pairwise OpeningDisjoint) :
    ((splitSegments lengthM ops).map (fun s => s.2 - s.1)).sum
      = lengthM - coverage ops
    ∧ (splitSegments lengthM ops).length = gapCount lengthM ops := by
  have hperm := sortOpenings_perm ops
  have hb' : ∀ op ∈ sortOpenings ops,
      0 ≤ op.from_m ∧ op.from_m < op.to_m ∧ op.to_m ≤ lengthM :=
    fun op h => hb op (hperm.mem_iff.mp h)
  have hsymm : Symmetric OpeningDisjoint := by
    intro a b hab
    rcases hab with h | h
    · exact Or.inr h
    · exact Or.inl h
  have hdisj' : (sortOpenings ops).Pairwise OpeningDisjoint :=
    (hperm.pairwise_iff (fun hab => hsymm hab)).mpr hdisj
  have hchain := chain_of_sorted_disjoint (sortOpenings ops)
    (sortOpenings_sorted ops) hdisj' (fun op h => (hb' op h).2.1)
  have hhead : (0 : ℚ) ≤ headFrom (sortOpenings ops) lengthM := by
    cases hs : sortOpenings ops with
    | nil => exact le_of_lt hL
    | cons op rest =>
      have := (hb' op (by simp [hs])).1
      simpa [headFrom] using this
  have heq : walkOpenings lengthM 0 (sortOpenings ops)
      = gapList lengthM 0 (sortOpenings ops) :=
    walkOpenings_eq_gapList lengthM (sortOpenings ops) 0
      (fun op h => ⟨(hb' op h).1, le_of_lt (hb' op h).2.1, (hb' op h).2.2⟩)
      hchain hhead
  have hcov : coverage (sortOpenings ops) = coverage ops := by
    unfold coverage
    exact (hperm.map (fun op => op.to_m - op.from_m)).sum_eq
  constructor
  · rw [splitSegments, heq,
      gapList_sum lengthM (sortOpenings ops) 0
        (fun op h => ⟨le_of_lt (hb' op h).2.1, (hb' op h).2.2⟩) hchain hhead,
      hcov]
    ring
  · rw [splitSegments, heq]
    rfl

/-- The wall length in meters as computed by `_split_wall_segments`:
`length_px / px_per_meter` after scale normalization. -/
def wallLengthM (pxRaw lengthPx : ℚ) : ℚ := lengthPx / normPxPerMeter pxRaw

/-- The sub-segment element emitted for the k-th solid span: id
`{original_id}_seg{k+1}` (braces literal) and pixel endpoints interpolated at
the span's meter offsets. -/
def emitSeg (w : WallSeg) (pxRaw lengthPx : ℚ) (p : Nat × (ℚ × ℚ)) : SplitResult :=
  let pxPerMeter := normPxPerMeter pxRaw
  let dx := w.x2 - w.x1
  let dy := w.y2 - w.y1
  let s := point_at w.x1 w.y1 dx dy pxPerMeter lengthPx p.2.1
  let e := point_at w.x1 w.y1 dx dy pxPerMeter lengthPx p.2.2
  SplitResult.seg (w.wid ++ "_seg" ++ toString (p.1 + 1)) [s.1, s.2, e.1, e.2]

theorem normPxPerMeter_pos (p : ℚ) : 0 < normPxPerMeter p := by
  unfold normPxPerMeter
  split
  · norm_num
  · linarith [not_le.mp (by assumption)]

theorem filterMap_pos_eq_map (f : Nat × (ℚ × ℚ) → SplitResult)
    (segs : List (ℚ × ℚ)) (hpos : ∀ s ∈ segs, s.1 < s.2) :
    ∀ k, ((segs.enumFrom k).filterMap
        (fun p => if p.2.2 - p.2.1 ≤ 0 then none else some (f p)))
      = (segs.enumFrom k).map f := by
  induction segs with
  | nil =>
    intro k
    rfl
  | cons s rest ih =>
    intro k
    have hs := hpos s (by simp)
    have hgt : ¬ (s.2 - s.1 ≤ 0) := by linarith
    simp only [List.enumFrom, List.filterMap_cons, List.map_cons, hgt,
      if_false, ih (fun x hx => hpos x (by simp [hx])) (k + 1)]

/-- Element-level splitter correctness: a wall with positive pixel length,
at least one opening, in-bounds positive-width pairwise non-overlapping
openings that do not fully cover the wall is replaced by exactly one
sub-segment element per maximal gap. -/
theorem split_wall_spec (pxRaw lengthPx : ℚ) (w : WallSeg)
    (hpx : 0 < lengthPx)
    (hne : w.openings ≠ [])
    (hb : ∀ op ∈ w.openings, 0 ≤ op.from_m ∧ op.from_m < op.to_m
        ∧ op.to_m ≤ wallLengthM pxRaw lengthPx)
    (hdisj : w.openings.Pairwise OpeningDisjoint)
    (hcov : coverage w.openings < wallLengthM pxRaw lengthPx) :
    split_wall pxRaw lengthPx w
        = (splitSegments (wallLengthM pxRaw lengthPx) w.openings).enum.map
            (emitSeg w pxRaw lengthPx)
    ∧ ((splitSegments (wallLengthM pxRaw lengthPx) w.openings).map
          (fun s => s.2 - s.1)).sum
        = wallLengthM pxRaw lengthPx - coverage w.openings
    ∧ (split_wall pxRaw lengthPx w).length
        = gapCount (wallLengthM pxRaw lengthPx) w.openings := by
  have hL : 0 < wallLengthM pxRaw lengthPx :=
    div_pos hpx (normPxPerMeter_pos pxRaw)
  obtain ⟨hsum, hcount⟩ :=
    splitSegments_spec (wallLengthM pxRaw lengthPx) w.openings hL hb hdisj
  have hsegs_ne : splitSegments (wallLengthM pxRaw lengthPx) w.openings ≠ [] := by
    intro h
    rw [h] at hsum
    simp at hsum
    linarith
  have hEmpty : w.openings.isEmpty = false := by
    cases ho : w.openings with
    | nil => exact absurd ho hne
    | cons a l => rfl
  have hSegsEmpty :
      (splitSegments (wallLengthM pxRaw lengthPx) w.openings).isEmpty = false := by
    cases hs : splitSegments (wallLengthM pxRaw lengthPx) w.openings with
    | nil => exact absurd hs hsegs_ne
    | cons a l => rfl
  have hlen : ¬ lengthPx = 0 := ne_of_gt hpx
  have hmain : split_wall pxRaw lengthPx w
      = (splitSegments (wallLengthM pxRaw lengthPx) w.openings).enum.map
          (emitSeg w pxRaw lengthPx) := by
    unfold split_wall
    have hSegsEmpty0 :
        (splitSegments (lengthPx / normPxPerMeter pxRaw) w.openings).isEmpty
          = false := hSegsEmpty
    simp only [hEmpty, Bool.false_eq_true, if_false, if_neg hlen, hSegsEmpty0]
    exact filterMap_pos_eq_map (emitSeg w pxRaw lengthPx)
      (splitSegments (wallLengthM pxRaw lengthPx) w.openings)
      (walkOpenings_pos (wallLengthM pxRaw lengthPx) (sortOpenings w.openings) 0) 0
  refine ⟨hmain, hsum, ?_⟩
  rw [hmain]
  simp [List.enum_length, hcount]

/-- C3 (amended): for every wall element with segment geometry of positive
pixel length and meter length L whose openings are non-empty, positive-width,
pairwise non-overlapping, lie within [0, L] and cover C < L meters in total,
the splitter replaces the wall by one sub-segment per maximal gap (derived
ids, interpolated pixel endpoints), the spans covered by the sub-segments
summing to L - C; in particular the Scenario 3 wall [0,0,1000,0] with
px_per_meter 100 and one opening [2, 4] becomes exactly
[0,0]→[200,0] and [400,0]→[1000,0].  (When the openings cover the wall
completely, C = L, the code keeps the original wall instead — see the
counterexample.) -/
theorem wall_split_completeness :
    (∀ (pxRaw lengthPx : ℚ) (w : WallSeg),
      IsHypot (w.x2 - w.x1) (w.y2 - w.y1) lengthPx →
      0 < lengthPx →
      w.openings ≠ [] →
      (∀ op ∈ w.openings, 0 ≤ op.from_m ∧ op.from_m < op.to_m
          ∧ op.to_m ≤ wallLengthM pxRaw lengthPx) →
      w.openings.Pairwise OpeningDisjoint →
      coverage w.openings < wallLengthM pxRaw lengthPx →
      (split_wall pxRaw lengthPx w
          = (splitSegments (wallLengthM pxRaw lengthPx) w.openings).enum.map
              (emitSeg w pxRaw lengthPx)
        ∧ ((splitSegments (wallLengthM pxRaw lengthPx) w.openings).map
              (fun s => s.2 - s.1)).sum
            = wallLengthM pxRaw lengthPx - coverage w.openings
        ∧ (split_wall pxRaw lengthPx w).length
            = gapCount (wallLengthM pxRaw lengthPx) w.openings))
  ∧ (IsHypot (1000 - 0) (0 - 0) 1000
      ∧ split_wall 100 1000 ⟨"w1", 0, 0, 1000, 0, [⟨2, 4⟩]⟩
          = [.seg "w1_seg1" [0, 0, 200, 0], .seg "w1_seg2" [400, 0, 1000, 0]]) := by
  constructor
  · intro pxRaw lengthPx w _ hpx hne hb hdisj hcov
    exact split_wall_spec pxRaw lengthPx w hpx hne hb hdisj hcov
  · refine ⟨⟨by norm_num, by norm_num⟩, ?_⟩
    norm_num [split_wall, normPxPerMeter, splitSegments, sortOpenings,
      List.insertionSort, List.orderedInsert, walkOpenings, point_at,
      List.enum, List.enumFrom, List.filterMap, max_def, min_def]
    exact ⟨rfl, rfl⟩

/-- Witness for C3 (amended): the general part applied to the Scenario 3
wall. -/
theorem wall_split_completeness_witness :
    (split_wall 100 1000 ⟨"w1", 0, 0, 1000, 0, [⟨2, 4⟩]⟩).length
      = gapCount (wallLengthM 100 1000) [⟨2, 4⟩] :=
  (wall_split_completeness.1 100 1000 ⟨"w1", 0, 0, 1000, 0, [⟨2, 4⟩]⟩
    ⟨by norm_num, by norm_num⟩ (by norm_num) (by simp)
    (by
      intro op hop
      rcases List.mem_singleton.mp hop with rfl
      norm_num [wallLengthM, normPxPerMeter])
    (by simp)
    (by norm_num [coverage, wallLengthM, normPxPerMeter])).2.2

/-- Counterexample for C3 as stated: a wall whose single opening covers the
entire wall (C = L, zero maximal gaps) is not replaced by zero sub-segments
as the claim requires — `_split_wall_segments` keeps the original wall
element unchanged when the computed span list is empty. -/
theorem wall_split_full_coverage_counterexample :
    IsHypot (1000 - 0) (0 - 0) 1000
  ∧ split_wall 100 1000 ⟨"w1", 0, 0, 1000, 0, [⟨0, 10⟩]⟩
      = [.original ⟨"w1", 0, 0, 1000, 0, [⟨0, 10⟩]⟩]
  ∧ gapCount (wallLengthM 100 1000) [⟨0, 10⟩] = 0
  ∧ coverage [⟨0, 10⟩] = wallLengthM 100 1000 := by
  refine ⟨⟨by norm_num, by norm_num⟩, ?_, ?_, ?_⟩
  · norm_num [split_wall, normPxPerMeter, splitSegments, sortOpenings,
      List.insertionSort, List.orderedInsert, walkOpenings,
      List.enum, List.enumFrom, List.filterMap, max_def, min_def]
  · norm_num [gapCount, gapList, sortOpenings, List.insertionSort,
      List.orderedInsert, wallLengthM, normPxPerMeter]
  · norm_num [coverage, wallLengthM, normPxPerMeter]

/-- An opening as supplied in a plan-save payload (app/schemas/plan.py
`Opening`). -/
structure RawOpening where
  oid : String
  otype : String
  from_m : ℚ
  to_m : ℚ
  bottom_m : ℚ
  top_m : ℚ
deriving DecidableEq, Repr

/-- The geometry payload of a plan element: segment (walls, doors, windows),
polygon (zones) or point (labels). -/
inductive RawGeometry where
  | segment (points : List ℚ) (openings : Option (List RawOpening))
  | polygon (points : List ℚ)
  | point (x y : ℚ)
deriving DecidableEq, Repr

/-- A plan element as supplied in a plan-save payload (the fields the
validation rules constrain). -/
structure RawElement where
  eid : String
  etype : String
  geometry : RawGeometry
  role : Option String
deriving DecidableEq, Repr

/-- Validation of one opening (plan.py `Opening`): the type literal and the
four non-negativity bounds.  There is no `from_m ≤ to_m` constraint and no
wall-length upper bound in the schema. -/
def validOpening (op : RawOpening) : Bool :=
  (op.otype = "door" || op.otype = "window" || op.otype = "arch"
      || op.otype = "custom")
    && decide (0 ≤ op.from_m) && decide (0 ≤ op.to_m)
    && decide (0 ≤ op.bottom_m) && decide (0 ≤ op.top_m)

/-- Validation of the optional role literal (plan.py `PlanElementBase`). -/
def validRole : Option String → Bool
  | none => true
  | some r => r = "EXISTING" || r = "TO_DELETE" || r = "NEW" || r = "MODIFIED"

/-- Validation of wall/door/window geometry (plan.py `WallGeometry`):
exactly four coordinates, and every opening valid. -/
def validWallGeometry : RawGeometry → Bool
  | .segment pts ops => pts.length = 4 && (ops.getD []).all validOpening
  | _ => false

/-- Validation of one element against the tagged union `PlanElement`
(plan.py): the `type` literal selects the variant and the variant constrains
the geometry.  Element ids are NOT checked for uniqueness anywhere. -/
def validElement (e : RawElement) : Bool :=
  validRole e.role &&
    (if e.etype = "wall" || e.etype = "door" || e.etype = "window" then
      validWallGeometry e.geometry
    else if e.etype = "zone" then
      match e.geometry with
      | .polygon pts => 6 ≤ pts.length
      | _ => false
    else if e.etype = "label" then
      match e.geometry with
      | .point _ _ => true
      | _ => false
    else false)

/-- Validation of a plan document's element list (plan.py `Plan`). -/
def validPlan (elements : List RawElement) : Bool := elements.all validElement

/-- The plan-save endpoint: the request body is validated by the schema
before the handler runs, so an invalid plan is rejected as a 422 and nothing
is stored; a valid plan goes through the `add_plan_version` upsert. -/
def add_plan_change (store : List (PlanRow (List RawElement))) (vt : String)
    (elements : List RawElement) (comment creator : Option String)
    (newId newTime : Nat) : Except String (List (PlanRow (List RawElement))) :=
  if validPlan elements then
    .ok (add_plan_version store vt elements comment creator newId newTime)
  else
    .error "ValidationError"

theorem validPlan_eq_false_of_mem {elements : List RawElement}
    {e : RawElement} (hmem : e ∈ elements) (hbad : validElement e = false) :
    validPlan elements = false := by
  unfold validPlan
  rw [List.all_eq_false]
  exact ⟨e, hmem, by simp [hbad]⟩

/-- C7 (amended): a plan save is rejected with a ValidationError, and nothing
is stored, whenever a wall/door/window element's geometry is not a segment
with exactly 4 coordinates, a zone element's geometry is not a polygon with
at least 6 coordinates, or any opening bound is negative.  (Openings with
`from_m > to_m` or bounds beyond the wall length, and duplicate element ids,
are NOT rejected — see the counterexample.) -/
theorem plan_validation_semantics :
    (∀ (store : List (PlanRow (List RawElement))) (vt : String)
        (elements : List RawElement) (comment creator : Option String)
        (newId newTime : Nat) (e : RawElement), e ∈ elements →
      (e.etype = "wall" ∨ e.etype = "door" ∨ e.etype = "window") →
      (∀ pts ops, e.geometry = .segment pts ops → pts.length ≠ 4) →
      add_plan_change store vt elements comment creator newId newTime
        = .error "ValidationError")
  ∧ (∀ (store : List (PlanRow (List RawElement))) (vt : String)
        (elements : List RawElement) (comment creator : Option String)
        (newId newTime : Nat) (e : RawElement), e ∈ elements →
      e.etype = "zone" →
      (∀ pts, e.geometry = .polygon pts → pts.length < 6) →
      add_plan_change store vt elements comment creator newId newTime
        = .error "ValidationError")
  ∧ (∀ (store : List (PlanRow (List RawElement))) (vt : String)
        (elements : List RawElement) (comment creator : Option String)
        (newId newTime : Nat) (e : RawElement) (pts : List ℚ)
        (ops : List RawOpening) (op : RawOpening), e ∈ elements →
      (e.etype = "wall" ∨ e.etype = "door" ∨ e.etype = "window") →
      e.geometry = .segment pts (some ops) → op ∈ ops →
      (op.from_m < 0 ∨ op.to_m < 0 ∨ op.bottom_m < 0 ∨ op.top_m < 0) →
      add_plan_change store vt elements comment creator newId newTime
        = .error "ValidationError") := by
  refine ⟨?_, ?_, ?_⟩
  · intro store vt elements comment creator newId newTime e hmem htype hgeom
    have hbad : validElement e = false := by
      unfold validElement
      have hwall : (e.etype = "wall" || e.etype = "door"
          || e.etype = "window") = true := by
        rcases htype with h | h | h <;> simp [h]
      rw [hwall, if_pos rfl]
      cases hg : e.geometry with
      | segment pts ops =>
        have := hgeom pts ops hg
        simp [validWallGeometry, this]
      | polygon pts => simp [validWallGeometry]
      | point x y => simp [validWallGeometry]
    unfold add_plan_change
    rw [validPlan_eq_false_of_mem hmem hbad]
    rfl
  · intro store vt elements comment creator newId newTime e hmem htype hgeom
    have hbad : validElement e = false := by
      unfold validElement
      have hnw : (e.etype = "wall" || e.etype = "door"
          || e.etype = "window") = false := by
        simp [htype]
      rw [hnw, if_neg (by simp), if_pos htype]
      cases hg : e.geometry with
      | segment pts ops => simp
      | polygon pts =>
        have := hgeom pts hg
        simp [Nat.not_le.mpr this]
      | point x y => simp
    unfold add_plan_change
    rw [validPlan_eq_false_of_mem hmem hbad]
    rfl
  · intro store vt elements comment creator newId newTime e pts ops op hmem
      htype hgeom hop hneg
    have hopbad : validOpening op = false := by
      unfold validOpening
      rcases hneg with h | h | h | h <;> simp [not_le.mpr h]
    have hbad : validElement e = false := by
      unfold validElement
      have hwall : (e.etype = "wall" || e.etype = "door"
          || e.etype = "window") = true := by
        rcases htype with h | h | h <;> simp [h]
      rw [hwall, if_pos rfl, hgeom]
      have : ops.all validOpening = false := by
        rw [List.all_eq_false]
        exact ⟨op, hop, by simp [hopbad]⟩
      simp [validWallGeometry, this]
    unfold add_plan_change
    rw [validPlan_eq_false_of_mem hmem hbad]
    rfl

/-- Witness for C7 (amended): a wall whose segment has only 3 coordinates is
rejected and nothing is stored. -/
theorem plan_validation_semantics_witness :
    add_plan_change [] "ORIGINAL"
        [⟨"w1", "wall", .segment [0, 0, 100] none, none⟩] none none 1 1
      = .error "ValidationError" :=
  plan_validation_semantics.1 [] "ORIGINAL"
    [⟨"w1", "wall", .segment [0, 0, 100] none, none⟩] none none 1 1
    ⟨"w1", "wall", .segment [0, 0, 100] none, none⟩ (by simp) (Or.inl rfl)
    (by
      intro pts ops h
      cases h
      decide)

/-- Counterexample for C7 as stated: a plan containing an opening with
`from_m = 5 > to_m = 2` (and with two elements sharing the id "w1") passes
schema validation and is stored — the claimed `from_m ≤ to_m`, wall-length
and id-uniqueness rejections do not exist in the code. -/
theorem plan_validation_counterexample :
    validPlan
        [⟨"w1", "wall",
            .segment [0, 0, 100, 0] (some [⟨"o1", "door", 5, 2, 0, 2⟩]),
            some "EXISTING"⟩,
         ⟨"w1", "wall", .segment [0, 0, 100, 0] none, some "EXISTING"⟩] = true
  ∧ add_plan_change [] "ORIGINAL"
        [⟨"w1", "wall",
            .segment [0, 0, 100, 0] (some [⟨"o1", "door", 5, 2, 0, 2⟩]),
            some "EXISTING"⟩,
         ⟨"w1", "wall", .segment [0, 0, 100, 0] none, some "EXISTING"⟩]
        none none 1 1
      = .ok [⟨1, "ORIGINAL",
          [⟨"w1", "wall",
              .segment [0, 0, 100, 0] (some [⟨"o1", "door", 5, 2, 0, 2⟩]),
              some "EXISTING"⟩,
           ⟨"w1", "wall", .segment [0, 0, 100, 0] none, some "EXISTING"⟩],
          true, none, none, 1⟩] := by
  constructor
  · decide
  · unfold add_plan_change
    rw [if_pos (by decide)]
    rfl

/-- Witness for C4: the characterization applied to the Scenario 4 plans at
id w1, which is present in both. -/
theorem calculate_plan_diff_characterization_witness :
    "w1" ∈ (calculate_plan_diff planA planB).modified ↔
      ∃ x y, pyLast planA "w1" = some x ∧ pyLast planB "w1" = some y ∧
        (x.geometry ≠ y.geometry ∨ x.role ≠ y.role ∨ x.zoneType ≠ y.zoneType) :=
  calculate_plan_diff_characterization.2.2.1 (List Int) planA planB "w1"
    (by decide) (by decide)

/-- Witness for C9: diff symmetry at the Scenario 4 plans. -/
theorem calculate_plan_diff_symmetry_witness :
    (calculate_plan_diff planA planB).added
        = (calculate_plan_diff planB planA).deleted
  ∧ (calculate_plan_diff planA planB).deleted
        = (calculate_plan_diff planB planA).added :=
  calculate_plan_diff_symmetry planA planB

/-- Witness for C10: the two diff functions agree on the Scenario 4 plans. -/
theorem calculate_plan_diff_eq_executor_witness :
    calculate_plan_diff planA planB = calculate_plan_diff_executor planA planB :=
  calculate_plan_diff_eq_executor planA planB
